import Mathlib

/-!
Verification development for the PDF-to-Typst global-grid converter
(`pdf_to_typst_global_grid.py`).  The converter's core is shallowly
embedded here: coordinates are modelled as rationals, the external page
reader (PyMuPDF) is abstracted as a `Page` record carrying the spans and
underline rectangles it would deliver, and every algorithmic function of
the source file becomes a computable Lean definition with the same name.
-/

/-- A text span with position and styling (dataclass `Span`). -/
structure Span where
  text : String
  x : ℚ
  y : ℚ
  width : ℚ
  height : ℚ
  is_bold : Bool
  is_italic : Bool
  is_underlined : Bool := false
  deriving DecidableEq, Repr

/-- An underline candidate rectangle as stored by `extract_underlines`:
its vertical midpoint `y` and horizontal extent `x0 .. x1`. -/
structure Underline where
  y : ℚ
  x0 : ℚ
  x1 : ℚ
  deriving DecidableEq, Repr

/-- One character-replacement pass of Python's `str.replace(c, r)`,
at the character-list level (patterns here are single characters). -/
def replaceChar (c : Char) (r : List Char) : List Char → List Char
  | [] => []
  | a :: as => (if a = c then r else [a]) ++ replaceChar c r as

/-- The eleven ordered replacement passes of `escape_typst`:
backslash first, then the special characters. -/
def escapePairs : List (Char × List Char) :=
  [('\\', ['\\', '\\']), ('#', ['\\', '#']), ('*', ['\\', '*']), ('_', ['\\', '_']),
   ('[', ['\\', '[']), (']', ['\\', ']']), ('<', ['\\', '<']), ('>', ['\\', '>']),
   ('\u0060', ['\\', '\u0060']), ('$', ['\\', '$']), ('@', ['\\', '@'])]

/-- `escape_typst` on a character list: the replacement passes applied
sequentially, in the source's order. -/
def escapeList (l : List Char) : List Char :=
  escapePairs.foldl (fun acc pr => replaceChar pr.1 pr.2 acc) l

/-- Escape special Typst characters (`escape_typst`). -/
def escape_typst (s : String) : String :=
  String.mk (escapeList s.data)

/-- Independent per-character escaping map: a special character becomes
backslash-then-itself, anything else is kept.  `escape_typst` is proved
equal to the concatenation of this map, which is exactly the
"inserted escape backslashes are never re-escaped" property. -/
def escMapChar (a : Char) : List Char :=
  if a = '\\' ∨ a = '#' ∨ a = '*' ∨ a = '_' ∨ a = '[' ∨ a = ']' ∨ a = '<' ∨
      a = '>' ∨ a = '\u0060' ∨ a = '$' ∨ a = '@'
  then ['\\', a] else [a]

/-- Does the first list occur as a prefix of the second?  Structural
model of Python's `str.startswith`, at the character-list level. -/
def listStarts : List Char → List Char → Bool
  | [], _ => true
  | _ :: _, [] => false
  | p :: ps, a :: as => p == a && listStarts ps as

/-- Model of Python's `str.startswith`. -/
def strStarts (s pat : String) : Bool :=
  listStarts pat.data s.data

/-- Model of Python's `str.strip()`: drop whitespace from both ends. -/
def pyStrip (s : String) : String :=
  String.mk (((s.data.dropWhile Char.isWhitespace).reverse.dropWhile
    Char.isWhitespace).reverse)

/-- Does one underline rectangle match a span, in the sense of the inner
test of `mark_underlines`: vertical midpoint within 5 of the span's
bottom, and horizontal ranges overlapping. -/
def ulMatches (span : Span) (ul : Underline) : Bool :=
  decide (|ul.y - (span.y + span.height)| ≤ 5) &&
    !(decide (ul.x1 < span.x) || decide (ul.x0 > span.x + span.width))

/-- The inner loop of `mark_underlines` for one span: scan the underline
rectangles in source order and set `is_underlined` at the first match
(the `break` in the source). -/
def markSpan (underlines : List Underline) (span : Span) : Span :=
  match underlines with
  | [] => span
  | ul :: rest =>
      if ulMatches span ul then { span with is_underlined := true }
      else markSpan rest span

/-- Mark which spans have underlines (`mark_underlines`). -/
def mark_underlines (spans : List Span) (underlines : List Underline) : List Span :=
  spans.map (markSpan underlines)

/-- The sorted set of unique input values: Python's
`sorted(set(positions))`. -/
def sortedUniq (positions : List ℚ) : List ℚ :=
  List.insertionSort (· ≤ ·) positions.dedup

/-- The chaining loop of `cluster_positions`.  `cur` is the current
cluster with its most recently appended member first (so `cur.head!` is
Python's `clusters[-1][-1]`); a finished cluster is emitted in ascending
order via `reverse`. -/
def chainClusters (tol : ℚ) : List ℚ → List ℚ → List (List ℚ)
  | cur, [] => [cur.reverse]
  | cur, p :: ps =>
      if p - cur.head! ≤ tol then chainClusters tol (p :: cur) ps
      else cur.reverse :: chainClusters tol [p] ps

/-- The clusters (lists of member values) built by `cluster_positions`
before averaging. -/
def clusterGroups (positions : List ℚ) (tol : ℚ) : List (List ℚ) :=
  match sortedUniq positions with
  | [] => []
  | p :: ps => chainClusters tol [p] ps

/-- Arithmetic mean of a list of rationals (`sum(cluster) / len(cluster)`). -/
def mean (l : List ℚ) : ℚ := l.sum / l.length

/-- Cluster close positions together (`cluster_positions`): the average
of each chained cluster. -/
def cluster_positions (positions : List ℚ) (tolerance : ℚ) : List ℚ :=
  (clusterGroups positions tolerance).map mean

/-- The scanning loop of `assign_to_cluster`, carrying the index of the
next candidate center; the fallback branch returns `0`. -/
def assignAux (value tolerance : ℚ) (i : Nat) : List ℚ → Nat
  | [] => 0
  | c :: cs => if |value - c| ≤ tolerance then i else assignAux value tolerance (i + 1) cs

/-- Find which cluster a value belongs to (`assign_to_cluster`): index of
the first center within `tolerance`, else the defensive fallback `0`. -/
def assign_to_cluster (value : ℚ) (clusters : List ℚ) (tolerance : ℚ) : Nat :=
  assignAux value tolerance 0 clusters

/-- Format a single span with its styling (`format_span`). -/
def format_span (span : Span) : String :=
  let text := escape_typst span.text
  if span.is_bold && span.is_underlined then "#underline[#strong[" ++ text ++ "]]"
  else if span.is_bold then "#strong[" ++ text ++ "]"
  else if span.is_italic then "#emph[" ++ text ++ "]"
  else if span.is_underlined then "#underline[" ++ text ++ "]"
  else text

/-- The bullet-stripping loop of the cell formatter: format every span,
skipping the span at index 0 when its stripped text is exactly one of the
three bullet glyphs (`for i, span in enumerate(cell): if i == 0 and
span.text.strip() in [bullets]: continue`). -/
def bulletFiltered (cell : List Span) : List String :=
  cell.enum.filterMap fun pr =>
    if pr.1 = 0 ∧ (pyStrip pr.2.text = "•" ∨ pyStrip pr.2.text = "●" ∨ pyStrip pr.2.text = "◦")
    then none
    else some (format_span pr.2)

/-- Render one non-empty cell's spans to a single string, as done inline
in `generate_typst_from_pdf`: the bullet branch is entered only when the
stripped concatenation starts with `•`. -/
def formatCell (cell : List Span) : String :=
  let text := String.join (cell.map Span.text)
  if strStarts (pyStrip text) "•" then "- " ++ String.join (bulletFiltered cell)
  else String.join (cell.map format_span)

/-- A page as delivered by the external page reader: its spans (already
filtered to non-blank text) and its thin-fill underline rectangles. -/
structure Page where
  spans : List Span
  underlines : List Underline
  deriving DecidableEq, Repr

/-- The fixed header lines emitted once per document, parameterised by
the font read from the environment. -/
def headerLines (font : String) : List String :=
  ["// Generated from PDF using global grid approach",
   "",
   "#set page(paper: \"a4\", margin: (x: 2cm, y: 2cm))",
   "#set text(font: \"" ++ font ++ "\", size: 11pt)",
   "#set par(leading: 0.65em)",
   ""]

/-- The page-break lines appended at the top of the per-page loop body,
for every page except the first. -/
def pageBreakLines (idx : Nat) : List String :=
  if 0 < idx then ["#pagebreak()", ""] else []

/-- Sort a cell's spans ascending by `x` (stable, like Python's
`list.sort`). -/
def sortByX (cell : List Span) : List Span :=
  cell.mergeSort fun a b => decide (a.x ≤ b.x)

/-- Build the per-page grid: one row per y-cluster, one column per
x-cluster, each cell holding the spans assigned to it (in extraction
order, then sorted by `x`). -/
def buildGrid (spans : List Span) (ycs xcs : List ℚ) : List (List (List Span)) :=
  (List.range ycs.length).map fun r =>
    (List.range xcs.length).map fun c =>
      sortByX (spans.filter fun s =>
        assign_to_cluster s.y ycs 3 == r && assign_to_cluster s.x xcs 5 == c)

/-- The line emitted for one cell of an emitted row: the formatted cell,
or the explicit empty placeholder. -/
def cellLine (cell : List Span) : String :=
  if cell.isEmpty then "  [],"
  else "  [" ++ formatCell cell ++ "],"

/-- The lines emitted for one grid row: nothing when no cell is filled,
otherwise a grid block with one bracketed entry per column. -/
def rowLines (ncols : Nat) (row : List (List Span)) : List String :=
  if row.countP (fun cell => !cell.isEmpty) = 0 then []
  else ["#grid(", "  columns: " ++ toString ncols ++ ",", "  gutter: 1em,"] ++
    row.map cellLine ++ [")"]

/-- The per-page body lines (clustering, grid building and row
serialisation), for a page whose span list is non-empty. -/
def pageBody (spans : List Span) : List String :=
  let xcs := cluster_positions (spans.map Span.x) 5
  let ycs := cluster_positions (spans.map Span.y) 3
  ((buildGrid spans ycs xcs).map (rowLines xcs.length)).flatten ++ [""]

/-- Everything appended to `typst_lines` during one iteration of the
per-page loop of `generate_typst_from_pdf`. -/
def processPage (idx : Nat) (page : Page) : List String :=
  let spans := mark_underlines page.spans page.underlines
  pageBreakLines idx ++ (if spans.isEmpty then [] else pageBody spans)

/-- Generate the output lines for a whole document
(`generate_typst_from_pdf`, with the page reader abstracted away). -/
def generate_typst_from_pdf (font : String) (doc : List Page) : List String :=
  headerLines font ++ (doc.enum.map fun pr => processPage pr.1 pr.2).flatten

/-- A plain (unstyled) span at a given position, for concrete test pages. -/
def mkSpan (t : String) (px py : ℚ) : Span :=
  ⟨t, px, py, 1, 1, false, false, false⟩

/-- The claim-side description of the bullet-stripping step: drop the
first span exactly when its stripped text is one of the three glyphs,
keep everything else.  The code's `bulletFiltered` is related to this
below. -/
def bulletDropped (cell : List Span) : List Span :=
  match cell with
  | [] => []
  | s :: rest =>
      if pyStrip s.text = "•" ∨ pyStrip s.text = "●" ∨ pyStrip s.text = "◦" then rest
      else s :: rest

/-- Concrete page for the C1 counterexample: four spans whose
x-coordinates chain into one wide cluster. -/
def c1Spans : List Span :=
  [mkSpan "a" 0 0, mkSpan "b" 5 0, mkSpan "c" 10 0, mkSpan "d" 15 0]

/-- Concrete page for the grid-stability example: x-positions
{0, 0, 50, 100} and y-positions {0, 20}. -/
def c8Spans : List Span :=
  [mkSpan "A" 0 0, mkSpan "B" 50 0, mkSpan "C" 0 20, mkSpan "D" 100 20]

/-! ### Helper lemmas about the escaping passes -/

lemma replaceChar_append (c : Char) (r : List Char) (xs ys : List Char) :
    replaceChar c r (xs ++ ys) = replaceChar c r xs ++ replaceChar c r ys := by
  induction xs with
  | nil => rfl
  | cons a as ih => simp [replaceChar, ih]

lemma escapeList_append (xs ys : List Char) :
    escapeList (xs ++ ys) = escapeList xs ++ escapeList ys := by
  unfold escapeList
  generalize escapePairs = ps
  induction ps generalizing xs ys with
  | nil => rfl
  | cons p ps ih => simp [List.foldl, replaceChar_append, ih]

lemma escapeList_singleton (a : Char) : escapeList [a] = escMapChar a := by
  by_cases h1 : a = '\\'
  · subst h1; decide
  by_cases h2 : a = '#'
  · subst h2; decide
  by_cases h3 : a = '*'
  · subst h3; decide
  by_cases h4 : a = '_'
  · subst h4; decide
  by_cases h5 : a = '['
  · subst h5; decide
  by_cases h6 : a = ']'
  · subst h6; decide
  by_cases h7 : a = '<'
  · subst h7; decide
  by_cases h8 : a = '>'
  · subst h8; decide
  by_cases h9 : a = '`'
  · subst h9; decide
  by_cases h10 : a = '$'
  · subst h10; decide
  by_cases h11 : a = '@'
  · subst h11; decide
  simp [escapeList, escapePairs, replaceChar, escMapChar, h1, h2, h3, h4, h5, h6, h7, h8,
    h9, h10, h11]

lemma escapeList_eq_flatten_map (l : List Char) :
    escapeList l = (l.map escMapChar).flatten := by
  induction l with
  | nil => rfl
  | cons a as ih =>
      have hsplit : a :: as = [a] ++ as := rfl
      rw [hsplit, escapeList_append, escapeList_singleton, ih]
      simp

/-! ### Helper lemmas about underline marking -/

lemma markSpan_is_underlined (s : Span) :
    ∀ uls : List Underline,
      (markSpan uls s).is_underlined = (s.is_underlined || uls.any (ulMatches s))
  | [] => by simp [markSpan]
  | ul :: rest => by
      by_cases h : ulMatches s ul = true
      · simp [markSpan, h]
      · simp only [Bool.not_eq_true] at h
        simp [markSpan, h, markSpan_is_underlined s rest]

lemma ulMatches_iff (s : Span) (ul : Underline) :
    ulMatches s ul = true ↔
      |ul.y - (s.y + s.height)| ≤ 5 ∧ s.x ≤ ul.x1 ∧ ul.x0 ≤ s.x + s.width := by
  simp [ulMatches, not_or, not_lt, and_assoc]

/-! ### Helper lemmas about cluster assignment bounds -/

lemma assignAux_lt (v tol : ℚ) :
    ∀ (cs : List ℚ) (i : Nat), cs ≠ [] → assignAux v tol i cs < i + cs.length := by
  intro cs
  induction cs with
  | nil => intro i h; exact absurd rfl h
  | cons c cs ih =>
      intro i _
      by_cases hc : |v - c| ≤ tol
      · simp only [assignAux, if_pos hc, List.length_cons]
        omega
      · rw [assignAux, if_neg hc]
        cases cs with
        | nil => simp [assignAux]
        | cons d ds =>
            have h := ih (i + 1) (by simp)
            simp only [List.length_cons] at h ⊢
            omega

lemma chainClusters_ne_nil (tol : ℚ) : ∀ (rest cur : List ℚ), chainClusters tol cur rest ≠ []
  | [], cur => by simp [chainClusters]
  | p :: ps, cur => by
      rw [chainClusters]
      split
      · exact chainClusters_ne_nil tol ps (p :: cur)
      · simp

lemma sortedUniq_ne_nil {positions : List ℚ} (h : positions ≠ []) :
    sortedUniq positions ≠ [] := by
  intro hs
  have hlen := (List.perm_insertionSort (· ≤ ·) positions.dedup).length_eq
  rw [show List.insertionSort (· ≤ ·) positions.dedup = sortedUniq positions from rfl, hs]
    at hlen
  exact h ((List.dedup_eq_nil positions).mp (List.length_eq_zero.mp hlen.symm))

lemma cluster_positions_ne_nil {positions : List ℚ} (tol : ℚ) (h : positions ≠ []) :
    cluster_positions positions tol ≠ [] := by
  unfold cluster_positions clusterGroups
  cases hs : sortedUniq positions with
  | nil => exact absurd hs (sortedUniq_ne_nil h)
  | cons p ps =>
      intro hmap
      exact chainClusters_ne_nil tol ps [p] (List.map_eq_nil_iff.mp hmap)

/-! ### Helper lemmas about the bullet-stripping loop -/

lemma bulletFiltered_enumFrom (rest : List Span) :
    ∀ n : Nat, n ≠ 0 →
      ((rest.enumFrom n).filterMap fun pr =>
        if pr.1 = 0 ∧ (pyStrip pr.2.text = "•" ∨ pyStrip pr.2.text = "●" ∨
            pyStrip pr.2.text = "◦")
        then none
        else some (format_span pr.2)) = rest.map format_span := by
  induction rest with
  | nil => intro n _; rfl
  | cons s rest ih =>
      intro n hn
      rw [List.enumFrom_cons, List.filterMap_cons]
      simp only [hn, false_and, if_false]
      rw [ih (n + 1) (by omega), List.map_cons]

lemma bulletFiltered_eq (cell : List Span) :
    bulletFiltered cell = (bulletDropped cell).map format_span := by
  cases cell with
  | nil => rfl
  | cons s rest =>
      unfold bulletFiltered bulletDropped
      rw [List.enum_cons, List.filterMap_cons]
      by_cases h : pyStrip s.text = "•" ∨ pyStrip s.text = "●" ∨ pyStrip s.text = "◦"
      · simp only [h, and_true, if_pos rfl, if_pos (And.intro rfl h)]
        exact bulletFiltered_enumFrom rest 1 (by omega)
      · simp only [h, and_false, if_neg h, if_false, List.map_cons]
        rw [bulletFiltered_enumFrom rest 1 (by omega)]

/-! ### C7: escaping order and non-re-escaping -/

/-- C7: `escape_typst` performs its replacements backslash-first and in
the fixed order, so the result is exactly the independent per-character
escaping (inserted escape backslashes are never re-escaped); in
particular `"a#b*c_d"` escapes to `"a\#b\*c\_d"` and `"\#"` escapes to
`"\\\#"`. -/
theorem C7_escape_order :
    (∀ l : List Char, escapeList l = (l.map escMapChar).flatten) ∧
    escape_typst "a#b*c_d" = "a\\#b\\*c\\_d" ∧
    escape_typst "\\#" = "\\\\\\#" :=
  ⟨escapeList_eq_flatten_map, by decide, by decide⟩

/-! ### C9: style precedence in format_span -/

/-- C9: a span that is italic and underlined but not bold is rendered
with the emphasis wrap only; a bold italic non-underlined span with the
strong wrap only; and whenever a span is bold and underlined the
bold-and-underlined branch wins, regardless of the italic flag. -/
theorem C9_style_precedence (s : Span) :
    (s.is_bold = false → s.is_italic = true → s.is_underlined = true →
      format_span s = "#emph[" ++ escape_typst s.text ++ "]") ∧
    (s.is_bold = true → s.is_italic = true → s.is_underlined = false →
      format_span s = "#strong[" ++ escape_typst s.text ++ "]") ∧
    (s.is_bold = true → s.is_underlined = true →
      format_span s = "#underline[#strong[" ++ escape_typst s.text ++ "]]") := by
  refine ⟨fun h1 h2 h3 => ?_, fun h1 h2 h3 => ?_, fun h1 h2 => ?_⟩
  · simp [format_span, h1, h2, h3]
  · simp [format_span, h1, h2, h3]
  · simp [format_span, h1, h2]

/-- Witness for C9 at a concrete italic underlined non-bold span. -/
theorem C9_style_precedence_witness :
    format_span ⟨"t", 0, 0, 0, 0, false, true, true⟩ =
      "#emph[" ++ escape_typst "t" ++ "]" :=
  (C9_style_precedence ⟨"t", 0, 0, 0, 0, false, true, true⟩).1 rfl rfl rfl

/-! ### C6: underline matching -/

/-- C6: for a span starting with `underlined = false`, `markSpan` sets
`underlined = true` iff some rectangle is vertically within 5 of the
span's bottom and horizontally overlapping; the first matching rectangle
determines the result without testing further rectangles; and the two concrete
bbox examples behave as stated. -/
theorem C6_underline_matching (s : Span) (uls : List Underline)
    (h : s.is_underlined = false) :
    ((markSpan uls s).is_underlined = true ↔
      ∃ ul ∈ uls, |ul.y - (s.y + s.height)| ≤ 5 ∧ s.x ≤ ul.x1 ∧ ul.x0 ≤ s.x + s.width) ∧
    (∀ ul rest, ulMatches s ul = true →
      markSpan (ul :: rest) s = { s with is_underlined := true }) ∧
    (markSpan [⟨51/5, 2, 8⟩] ⟨"t", 0, 0, 10, 10, false, false, false⟩).is_underlined
      = true ∧
    (markSpan [⟨20, 2, 8⟩] ⟨"t", 0, 0, 10, 10, false, false, false⟩).is_underlined
      = false := by
  refine ⟨?_, ?_, ?_, ?_⟩
  · rw [markSpan_is_underlined, h]
    simp only [Bool.false_or, List.any_eq_true]
    constructor
    · rintro ⟨ul, hul, hm⟩
      exact ⟨ul, hul, (ulMatches_iff s ul).mp hm⟩
    · rintro ⟨ul, hul, hm⟩
      exact ⟨ul, hul, (ulMatches_iff s ul).mpr hm⟩
  · intro ul rest hm
    simp [markSpan, hm]
  · norm_num [markSpan, ulMatches, abs_le]
  · norm_num [markSpan, ulMatches, abs_le]

/-- Witness for C6 at the concrete example span and rectangle. -/
theorem C6_underline_matching_witness :
    (markSpan [⟨51/5, 2, 8⟩] ⟨"t", 0, 0, 10, 10, false, false, false⟩).is_underlined
      = true :=
  (C6_underline_matching ⟨"t", 0, 0, 10, 10, false, false, false⟩ [] rfl).2.2.1

/-! ### C10: assignment indices stay in bounds -/

/-- C10: `assign_to_cluster` on a non-empty center list always returns an
index below the list's length, and on a page with at least one span both
the row and the column index of every span are within the bounds of the
grid built from that page's y- and x-clusters. -/
theorem C10_assign_in_bounds (v : ℚ) (clusters : List ℚ) (tol : ℚ) (spans : List Span)
    (h : clusters ≠ []) (hs : spans ≠ []) :
    assign_to_cluster v clusters tol < clusters.length ∧
    (buildGrid spans (cluster_positions (spans.map Span.y) 3)
        (cluster_positions (spans.map Span.x) 5)).length
      = (cluster_positions (spans.map Span.y) 3).length ∧
    ∀ s ∈ spans,
      assign_to_cluster s.y (cluster_positions (spans.map Span.y) 3) 3 <
        (cluster_positions (spans.map Span.y) 3).length ∧
      assign_to_cluster s.x (cluster_positions (spans.map Span.x) 5) 5 <
        (cluster_positions (spans.map Span.x) 5).length := by
  have hy : spans.map Span.y ≠ [] := fun hm => hs (List.map_eq_nil_iff.mp hm)
  have hx : spans.map Span.x ≠ [] := fun hm => hs (List.map_eq_nil_iff.mp hm)
  refine ⟨by simpa using assignAux_lt v tol clusters 0 h, by simp [buildGrid], ?_⟩
  intro s _
  constructor
  · simpa using assignAux_lt s.y 3 (cluster_positions (spans.map Span.y) 3) 0
      (cluster_positions_ne_nil 3 hy)
  · simpa using assignAux_lt s.x 5 (cluster_positions (spans.map Span.x) 5) 0
      (cluster_positions_ne_nil 5 hx)

/-- Witness for C10 at a singleton center list and a one-span page. -/
theorem C10_assign_in_bounds_witness :
    assign_to_cluster 0 [0] 5 < ([0] : List ℚ).length :=
  (C10_assign_in_bounds 0 [0] 5 [mkSpan "t" 0 0] (by simp) (by simp)).1

/-! ### C2: bullet handling (corrected) -/

/-- C2 counterexample: a cell whose stripped concatenation begins with
the glyph `●` and whose first span's stripped text is exactly `●` is
nevertheless rendered unmodified (no span dropped, no "- " prefix),
because the code only tests for `•`. -/
theorem C2_counterexample :
    strStarts (pyStrip (String.join ([mkSpan "●" 0 0, mkSpan " Item one" 2 0].map
      Span.text))) "●" = true ∧
    pyStrip (mkSpan "●" 0 0).text = "●" ∧
    formatCell [mkSpan "●" 0 0, mkSpan " Item one" 2 0] = "● Item one" ∧
    strStarts (formatCell [mkSpan "●" 0 0, mkSpan " Item one" 2 0]) "- " = false := by
  refine ⟨by decide, by decide, by decide, by decide⟩

/-- C2 (amended): the bullet branch is entered iff the stripped
concatenation begins with `•` (and only that glyph); inside it, the
output is prefixed with "- " and the first span is dropped iff its own
stripped text is exactly one of `•`, `●`, `◦`; otherwise all spans are
rendered unmodified.  The two spec examples evaluate accordingly. -/
theorem C2_bullet_branch (cell : List Span) :
    (strStarts (pyStrip (String.join (cell.map Span.text))) "•" = false →
      formatCell cell = String.join (cell.map format_span)) ∧
    (strStarts (pyStrip (String.join (cell.map Span.text))) "•" = true →
      formatCell cell = "- " ++ String.join ((bulletDropped cell).map format_span)) ∧
    (∀ s rest, (pyStrip s.text = "•" ∨ pyStrip s.text = "●" ∨ pyStrip s.text = "◦") →
      bulletDropped (s :: rest) = rest) ∧
    (∀ s rest, ¬(pyStrip s.text = "•" ∨ pyStrip s.text = "●" ∨ pyStrip s.text = "◦") →
      bulletDropped (s :: rest) = s :: rest) ∧
    formatCell [mkSpan "•" 0 0, mkSpan " Item one" 2 0] = "-  Item one" ∧
    formatCell [mkSpan "Item" 0 0, mkSpan " two" 2 0] = "Item two" := by
  refine ⟨?_, ?_, ?_, ?_, by decide, by decide⟩
  · intro h
    simp only [formatCell, h, Bool.false_eq_true, if_false]
  · intro h
    simp only [formatCell, h, if_true, bulletFiltered_eq]
  · intro s rest h
    simp only [bulletDropped, if_pos h]
  · intro s rest h
    simp only [bulletDropped, if_neg h]

/-- Witness for C2 at the unmodified-cell example. -/
theorem C2_bullet_branch_witness :
    formatCell [mkSpan "Item" 0 0, mkSpan " two" 2 0] =
      String.join ([mkSpan "Item" 0 0, mkSpan " two" 2 0].map format_span) :=
  (C2_bullet_branch [mkSpan "Item" 0 0, mkSpan " two" 2 0]).1 (by decide)

/-! ### C3: empty pages (corrected) -/

/-- C3 counterexample: an empty page at index 1 does append output lines,
namely the page-break marker and the blank separator. -/
theorem C3_counterexample :
    processPage 1 ⟨[], []⟩ ≠ [] ∧ processPage 1 ⟨[], []⟩ = ["#pagebreak()", ""] := by
  refine ⟨by decide, by decide⟩

/-- C3 (amended): a page with no spans contributes exactly the inter-page
separator lines (page-break marker and blank line, present for every page
except the first) and nothing else — in particular no grid block — and
appending such a page to a document leaves every earlier page's output
untouched. -/
theorem C3_empty_page (idx : Nat) (p : Page) (h : p.spans = []) :
    processPage idx p = (if 0 < idx then ["#pagebreak()", ""] else []) ∧
    "#grid(" ∉ processPage idx p ∧
    ∀ font (doc : List Page),
      generate_typst_from_pdf font (doc ++ [p]) =
        generate_typst_from_pdf font doc ++ processPage doc.length p := by
  have hpp : processPage idx p = pageBreakLines idx := by
    simp [processPage, mark_underlines, h]
  refine ⟨by rw [hpp, pageBreakLines], ?_, ?_⟩
  · rw [hpp, pageBreakLines]
    split
    · decide
    · simp
  · intro font doc
    simp [generate_typst_from_pdf, List.enum_append, List.append_assoc]

/-- Witness for C3 at a concrete empty page in second position. -/
theorem C3_empty_page_witness :
    processPage 2 ⟨[], []⟩ = (if 0 < 2 then ["#pagebreak()", ""] else []) :=
  (C3_empty_page 2 ⟨[], []⟩ rfl).1

/-! ### Structure of the chained clusters -/

lemma chainClusters_flatten (tol : ℚ) :
    ∀ (rest cur : List ℚ), (chainClusters tol cur rest).flatten = cur.reverse ++ rest := by
  intro rest
  induction rest with
  | nil => intro cur; simp [chainClusters]
  | cons p ps ih =>
      intro cur
      rw [chainClusters]
      split
      · rw [ih (p :: cur)]
        simp
      · simp [ih [p]]

lemma clusterGroups_flatten (positions : List ℚ) (tol : ℚ) :
    (clusterGroups positions tol).flatten = sortedUniq positions := by
  unfold clusterGroups
  cases hs : sortedUniq positions with
  | nil => simp
  | cons p ps => simp [chainClusters_flatten]

lemma mem_sortedUniq {v : ℚ} {positions : List ℚ} :
    v ∈ sortedUniq positions ↔ v ∈ positions := by
  unfold sortedUniq
  rw [(List.perm_insertionSort _ _).mem_iff, List.mem_dedup]

/-! ### The mean of a cluster lies among its members' range -/

lemma abs_length_mul_sub_sum_le (v tol : ℚ) :
    ∀ g : List ℚ, (∀ a ∈ g, |v - a| ≤ tol) → |(g.length : ℚ) * v - g.sum| ≤ g.length * tol := by
  intro g
  induction g with
  | nil => intro _; simp
  | cons a l ih =>
      intro h
      have h1 : |v - a| ≤ tol := h a (by simp)
      have h2 := ih fun b hb => h b (by simp [hb])
      have hsplit : (((a :: l).length : ℚ)) * v - (a :: l).sum
          = (v - a) + ((l.length : ℚ) * v - l.sum) := by
        push_cast [List.length_cons, List.sum_cons]
        ring
      rw [hsplit]
      calc |(v - a) + ((l.length : ℚ) * v - l.sum)|
          ≤ |v - a| + |(l.length : ℚ) * v - l.sum| := abs_add _ _
        _ ≤ tol + (l.length : ℚ) * tol := add_le_add h1 h2
        _ = ((a :: l).length : ℚ) * tol := by push_cast [List.length_cons]; ring

lemma abs_sub_mean_le (v tol : ℚ) (g : List ℚ) (hg : g ≠ [])
    (h : ∀ a ∈ g, |v - a| ≤ tol) : |v - mean g| ≤ tol := by
  have hn : 0 < (g.length : ℚ) := by
    exact_mod_cast List.length_pos.mpr hg
  have hb := abs_length_mul_sub_sum_le v tol g h
  have hme : v - mean g = ((g.length : ℚ) * v - g.sum) / g.length := by
    field_simp [mean]
    ring
  rw [hme, abs_div, abs_of_pos hn, div_le_iff₀ hn]
  calc |(g.length : ℚ) * v - g.sum| ≤ g.length * tol := hb
    _ = tol * g.length := mul_comm _ _

/-! ### C1: assignment within tolerance (corrected) -/

/-- C1 counterexample: on the page `c1Spans` (x-positions 0, 5, 10, 15)
the x-population chains into the single center 15/2 under tolerance 5,
and the first span's x-coordinate 0 — a member of the very population the
centers were built from — is not within tolerance of any center, so
`assign_to_cluster` takes the defensive fallback and returns index 0. -/
theorem C1_counterexample :
    (mkSpan "a" 0 0) ∈ c1Spans ∧
    (mkSpan "a" 0 0).x ∈ c1Spans.map Span.x ∧
    cluster_positions (c1Spans.map Span.x) 5 = [15/2] ∧
    (∀ c ∈ cluster_positions (c1Spans.map Span.x) 5, ¬(|(mkSpan "a" 0 0).x - c| ≤ 5)) ∧
    assign_to_cluster (mkSpan "a" 0 0).x (cluster_positions (c1Spans.map Span.x) 5) 5
      = 0 := by
  have hmap : c1Spans.map Span.x = [0, 5, 10, 15] := by decide
  have hcs : cluster_positions (c1Spans.map Span.x) 5 = [15/2] := by
    rw [hmap]
    norm_num [cluster_positions, clusterGroups, sortedUniq, chainClusters, mean,
      List.insertionSort, List.orderedInsert, List.dedup]
  refine ⟨by decide, by decide, hcs, ?_, ?_⟩
  · intro c hc
    rw [hcs, List.mem_singleton] at hc
    subst hc
    norm_num [mkSpan, abs_le]
  · rw [hcs]
    norm_num [mkSpan, assign_to_cluster, assignAux, abs_le]

/-- C1 (amended): the no-fallback guarantee holds under the additional
hypothesis that every chained cluster of the population is pairwise
within the tolerance (equivalently, no cluster was stretched wider than
the tolerance by chaining): then every population member is within
tolerance of some produced center.  Without that hypothesis the fallback
can fire, as `C1_counterexample` shows. -/
theorem C1_within_tolerance (positions : List ℚ) (tol : ℚ) (v : ℚ)
    (hv : v ∈ positions)
    (hw : ∀ g ∈ clusterGroups positions tol, ∀ a ∈ g, ∀ b ∈ g, |a - b| ≤ tol) :
    ∃ c ∈ cluster_positions positions tol, |v - c| ≤ tol := by
  have hv' : v ∈ (clusterGroups positions tol).flatten := by
    rw [clusterGroups_flatten, mem_sortedUniq]
    exact hv
  obtain ⟨g, hg, hvg⟩ := List.mem_flatten.mp hv'
  refine ⟨mean g, List.mem_map_of_mem mean hg, ?_⟩
  exact abs_sub_mean_le v tol g (List.ne_nil_of_mem hvg) fun a ha => hw g hg v hvg a ha

/-- Witness for C1 at a population whose clusters are pairwise within
tolerance. -/
theorem C1_within_tolerance_witness :
    ∃ c ∈ cluster_positions [0, 4, 20] 5, |(0 : ℚ) - c| ≤ 5 :=
  C1_within_tolerance [0, 4, 20] 5 0 (by norm_num)
    (by norm_num [clusterGroups, sortedUniq, chainClusters, List.insertionSort,
      List.orderedInsert, List.dedup, abs_le])

/-! ### Generic helpers for nonempty lists and chains -/

lemma head!_mem (l : List ℚ) (h : l ≠ []) : l.head! ∈ l := by
  cases l with
  | nil => exact absurd rfl h
  | cons a t => simp

lemma getLast!_mem (l : List ℚ) (h : l ≠ []) : l.getLast! ∈ l := by
  have h1 : l.getLast? = some (l.getLast h) :=
    Option.mem_def.mp (List.getLast_mem_getLast? h)
  rw [List.getLast!_of_getLast? h1]
  exact List.getLast_mem h

lemma getLast!_cons_cons (a b : ℚ) (l : List ℚ) :
    (a :: b :: l).getLast! = (b :: l).getLast! := by
  obtain ⟨x, hx⟩ : ∃ x, (b :: l).getLast? = some x :=
    ⟨_, Option.mem_def.mp (List.getLast_mem_getLast? (List.cons_ne_nil b l))⟩
  have h2 : (a :: b :: l).getLast? = some x := by
    rw [List.getLast?_cons_cons]
    exact hx
  rw [List.getLast!_of_getLast? h2, List.getLast!_of_getLast? hx]

lemma chain'_mono_mem {α : Type} {R S : α → α → Prop} :
    ∀ {l : List α}, (∀ a ∈ l, ∀ b ∈ l, R a b → S a b) → l.Chain' R → l.Chain' S := by
  intro l
  induction l with
  | nil => intro _ _; simp
  | cons x t ih =>
      intro himp hch
      rw [List.chain'_cons'] at hch ⊢
      obtain ⟨hhead, htail⟩ := hch
      refine ⟨?_, ih (fun a ha b hb => himp a (by simp [ha]) b (by simp [hb])) htail⟩
      intro y hy
      have hy' : y ∈ t := by
        cases t with
        | nil => simp at hy
        | cons z t' =>
            simp only [List.head?_cons, Option.mem_def, Option.some.injEq] at hy
            simp [hy]
      exact himp x (by simp) y (by simp [hy']) (hhead y hy)

lemma chain'_and {α : Type} {R S : α → α → Prop} :
    ∀ {l : List α}, l.Chain' R → l.Chain' S → l.Chain' (fun a b => R a b ∧ S a b) := by
  intro l
  induction l with
  | nil => intro _ _; simp
  | cons x t ih =>
      intro hR hS
      rw [List.chain'_cons'] at hR hS ⊢
      exact ⟨fun y hy => ⟨hR.1 y hy, hS.1 y hy⟩, ih hR.2 hS.2⟩

lemma chain_boundary_of_flatten_pairwise {R : ℚ → ℚ → Prop} :
    ∀ (groups : List (List ℚ)), (∀ g ∈ groups, g ≠ []) →
      groups.flatten.Pairwise R →
      List.Chain' (fun g h => R g.getLast! h.head!) groups := by
  intro groups
  induction groups with
  | nil => intro _ _; simp
  | cons g rest ih =>
      intro hne hp
      rw [List.flatten_cons, List.pairwise_append] at hp
      obtain ⟨_, hrest, hcross⟩ := hp
      rw [List.chain'_cons']
      refine ⟨?_, ih (fun x hx => hne x (List.mem_cons_of_mem g hx)) hrest⟩
      intro h2 hh2
      have hmem : h2 ∈ rest := List.mem_of_mem_head? hh2
      refine hcross _ (getLast!_mem g (hne g (by simp))) _ ?_
      exact List.mem_flatten_of_mem hmem
        (head!_mem h2 (hne h2 (List.mem_cons_of_mem g hmem)))

/-! ### Chains inside and between the produced clusters -/

lemma chainClusters_forall_ne_nil (tol : ℚ) :
    ∀ (rest cur : List ℚ), cur ≠ [] → ∀ g ∈ chainClusters tol cur rest, g ≠ [] := by
  intro rest
  induction rest with
  | nil =>
      intro cur hc g hg
      simp only [chainClusters, List.mem_singleton] at hg
      subst hg
      simpa using hc
  | cons p ps ih =>
      intro cur hc g hg
      rw [chainClusters] at hg
      split at hg
      · exact ih (p :: cur) (by simp) g hg
      · rcases List.mem_cons.mp hg with h | h
        · subst h; simpa using hc
        · exact ih [p] (by simp) g h

lemma chainClusters_chain_within (tol : ℚ) :
    ∀ (rest cur : List ℚ), cur ≠ [] →
      List.Chain' (fun a b => b - a ≤ tol) cur.reverse →
      ∀ g ∈ chainClusters tol cur rest, List.Chain' (fun a b => b - a ≤ tol) g := by
  intro rest
  induction rest with
  | nil =>
      intro cur _ hch g hg
      simp only [chainClusters, List.mem_singleton] at hg
      subst hg
      exact hch
  | cons p ps ih =>
      intro cur hc hch g hg
      rw [chainClusters] at hg
      split at hg
      case isTrue hle =>
        refine ih (p :: cur) (by simp) ?_ g hg
        rw [List.reverse_cons]
        refine List.Chain'.append hch (List.chain'_singleton p) ?_
        intro x hx y hy
        rw [List.getLast?_reverse] at hx
        obtain ⟨a, cs, rfl⟩ := List.exists_cons_of_ne_nil hc
        simp only [List.head?_cons, Option.mem_def, Option.some.injEq] at hx hy
        subst hx
        subst hy
        simpa using hle
      case isFalse hgt =>
        rcases List.mem_cons.mp hg with h | h
        · subst h; exact hch
        · exact ih [p] (by simp) (by simp) g h

lemma chainClusters_first (tol : ℚ) :
    ∀ (rest cur : List ℚ), ∃ ext gs, chainClusters tol cur rest = (cur.reverse ++ ext) :: gs := by
  intro rest
  induction rest with
  | nil => intro cur; exact ⟨[], [], by simp [chainClusters]⟩
  | cons p ps ih =>
      intro cur
      rw [chainClusters]
      split
      · obtain ⟨ext, gs, he⟩ := ih (p :: cur)
        refine ⟨p :: ext, gs, ?_⟩
        rw [he, List.reverse_cons, List.append_assoc]
        rfl
      · exact ⟨[], chainClusters tol [p] ps, by simp⟩

lemma chainClusters_chain_between (tol : ℚ) :
    ∀ (rest cur : List ℚ), cur ≠ [] →
      List.Chain' (fun g h => tol < h.head! - g.getLast!) (chainClusters tol cur rest) := by
  intro rest
  induction rest with
  | nil => intro cur _; simp [chainClusters]
  | cons p ps ih =>
      intro cur hc
      rw [chainClusters]
      split
      case isTrue hle => exact ih (p :: cur) (by simp)
      case isFalse hgt =>
        rw [List.chain'_cons']
        refine ⟨?_, ih [p] (by simp)⟩
        intro g hgmem
        obtain ⟨ext, gs, he⟩ := chainClusters_first tol ps [p]
        rw [he] at hgmem
        simp only [List.head?_cons, Option.mem_def, Option.some.injEq] at hgmem
        subst hgmem
        obtain ⟨a, cs, rfl⟩ := List.exists_cons_of_ne_nil hc
        have h1 : ((a :: cs).reverse).getLast! = a := by
          refine List.getLast!_of_getLast? ?_
          rw [List.getLast?_reverse]
          rfl
        have hl : ([p].reverse ++ ext : List ℚ) = p :: ext := by simp
        rw [hl, List.head!_cons, h1]
        rw [List.head!_cons] at hgt
        linarith [not_le.mp hgt]

lemma clusterGroups_ne_nil_mem (positions : List ℚ) (tol : ℚ) :
    ∀ g ∈ clusterGroups positions tol, g ≠ [] := by
  unfold clusterGroups
  cases hs : sortedUniq positions with
  | nil => simp
  | cons p ps => exact chainClusters_forall_ne_nil tol ps [p] (by simp)

lemma clusterGroups_chain_within (positions : List ℚ) (tol : ℚ) :
    ∀ g ∈ clusterGroups positions tol, List.Chain' (fun a b => b - a ≤ tol) g := by
  unfold clusterGroups
  cases hs : sortedUniq positions with
  | nil => simp
  | cons p ps => exact chainClusters_chain_within tol ps [p] (by simp) (by simp)

lemma clusterGroups_chain_between (positions : List ℚ) (tol : ℚ) :
    List.Chain' (fun g h => tol < h.head! - g.getLast!) (clusterGroups positions tol) := by
  unfold clusterGroups
  cases hs : sortedUniq positions with
  | nil => simp
  | cons p ps => exact chainClusters_chain_between tol ps [p] (by simp)

/-! ### Sortedness facts about the unique value list -/

lemma sortedUniq_sorted (positions : List ℚ) :
    (sortedUniq positions).Sorted (· ≤ ·) :=
  List.sorted_insertionSort (· ≤ ·) positions.dedup

lemma sortedUniq_nodup (positions : List ℚ) : (sortedUniq positions).Nodup :=
  (List.perm_insertionSort (· ≤ ·) positions.dedup).nodup_iff.mpr (List.nodup_dedup positions)

lemma sortedUniq_sorted_lt (positions : List ℚ) :
    (sortedUniq positions).Sorted (· < ·) :=
  (sortedUniq_sorted positions).lt_of_le (sortedUniq_nodup positions)

lemma clusterGroups_pairwise_le (positions : List ℚ) (tol : ℚ) :
    ∀ g ∈ clusterGroups positions tol, g.Pairwise (· ≤ ·) := by
  intro g hg
  refine List.Pairwise.sublist (List.sublist_flatten_of_mem hg) ?_
  rw [clusterGroups_flatten]
  exact sortedUniq_sorted positions

/-! ### Mean bounds for a sorted cluster -/

lemma le_mean_of_forall_le (c : ℚ) (g : List ℚ) (hne : g ≠ [])
    (h : ∀ a ∈ g, c ≤ a) : c ≤ mean g := by
  have hn : 0 < (g.length : ℚ) := by exact_mod_cast List.length_pos.mpr hne
  rw [mean, le_div_iff₀ hn]
  have hs := List.card_nsmul_le_sum g c h
  rw [nsmul_eq_mul] at hs
  linarith

lemma mean_le_of_forall_le (c : ℚ) (g : List ℚ) (hne : g ≠ [])
    (h : ∀ a ∈ g, a ≤ c) : mean g ≤ c := by
  have hn : 0 < (g.length : ℚ) := by exact_mod_cast List.length_pos.mpr hne
  rw [mean, div_le_iff₀ hn]
  have hs := List.sum_le_card_nsmul g c h
  rw [nsmul_eq_mul] at hs
  linarith

lemma head!_le_of_pairwise (g : List ℚ) (hp : g.Pairwise (· ≤ ·)) :
    ∀ a ∈ g, g.head! ≤ a := by
  cases g with
  | nil => simp
  | cons x t =>
      intro a ha
      rw [List.head!_cons]
      rcases List.mem_cons.mp ha with rfl | ha'
      · exact le_refl a
      · exact (List.pairwise_cons.mp hp).1 a ha'

lemma le_getLast!_of_pairwise :
    ∀ (g : List ℚ), g.Pairwise (· ≤ ·) → ∀ a ∈ g, a ≤ g.getLast! := by
  intro g
  induction g with
  | nil => simp
  | cons x t ih =>
      intro hp a ha
      rw [List.pairwise_cons] at hp
      cases t with
      | nil =>
          rw [List.mem_singleton] at ha
          subst ha
          simp [List.getLast!_cons]
      | cons y t' =>
          rw [getLast!_cons_cons]
          rcases List.mem_cons.mp ha with rfl | ha'
          · exact hp.1 _ (getLast!_mem _ (by simp))
          · exact ih hp.2 a ha'

lemma head!_le_mean (g : List ℚ) (hne : g ≠ []) (hp : g.Pairwise (· ≤ ·)) :
    g.head! ≤ mean g :=
  le_mean_of_forall_le g.head! g hne (head!_le_of_pairwise g hp)

lemma mean_le_getLast! (g : List ℚ) (hne : g ≠ []) (hp : g.Pairwise (· ≤ ·)) :
    mean g ≤ g.getLast! :=
  mean_le_of_forall_le g.getLast! g hne (le_getLast!_of_pairwise g hp)

/-! ### C4: chaining semantics of cluster_positions -/

/-- C4: the clusters are built by chaining on the sorted set of unique
values — their concatenation is exactly that sorted set, within a
cluster each member is within tolerance of the *previously appended*
member, and a new cluster starts exactly when the next value is more
than the tolerance beyond the last appended member; each center is the
arithmetic mean of its cluster, and the spec's concrete example
evaluates to [11.5, 30.5]. -/
theorem C4_chaining (positions : List ℚ) (tol : ℚ) :
    cluster_positions positions tol = (clusterGroups positions tol).map mean ∧
    (clusterGroups positions tol).flatten = sortedUniq positions ∧
    (∀ g ∈ clusterGroups positions tol, g ≠ [] ∧
      List.Chain' (fun a b => b - a ≤ tol) g) ∧
    List.Chain' (fun g h => tol < h.head! - g.getLast!) (clusterGroups positions tol) ∧
    cluster_positions [10, 12, 15, 30, 31, 9] 5 = [23/2, 61/2] := by
  refine ⟨rfl, clusterGroups_flatten positions tol, ?_, clusterGroups_chain_between positions tol, ?_⟩
  · intro g hg
    exact ⟨clusterGroups_ne_nil_mem positions tol g hg,
      clusterGroups_chain_within positions tol g hg⟩
  · norm_num [cluster_positions, clusterGroups, sortedUniq, chainClusters, mean,
      List.insertionSort, List.orderedInsert, List.dedup]

/-- Witness for C4: on the spec's example population, the cluster
[30, 31] is produced, non-empty and chained within tolerance. -/
theorem C4_chaining_witness :
    ([30, 31] : List ℚ) ≠ [] ∧ List.Chain' (fun a b => b - a ≤ 5) ([30, 31] : List ℚ) :=
  (C4_chaining [10, 12, 15, 30, 31, 9] 5).2.2.1 [30, 31]
    (by norm_num [clusterGroups, sortedUniq, chainClusters,
      List.insertionSort, List.orderedInsert, List.dedup])

/-! ### Re-clustering already separated centers -/

lemma chainClusters_singletons (tol : ℚ) :
    ∀ (ps : List ℚ) (p : ℚ), List.Chain' (fun a b => tol < b - a) (p :: ps) →
      chainClusters tol [p] ps = (p :: ps).map (fun a => [a]) := by
  intro ps
  induction ps with
  | nil => intro p _; simp [chainClusters]
  | cons q qs ih =>
      intro p hch
      rw [List.chain'_cons] at hch
      obtain ⟨h1, h2⟩ := hch
      rw [chainClusters, if_neg (by rw [List.head!_cons]; linarith)]
      simp [ih q h2]

lemma mean_singleton (a : ℚ) : mean [a] = a := by
  simp [mean]

lemma cluster_positions_of_sorted_gap (tol : ℚ) (l : List ℚ)
    (hsu : sortedUniq l = l) (hch : l.Chain' (fun a b => tol < b - a)) :
    cluster_positions l tol = l := by
  rw [cluster_positions]
  unfold clusterGroups
  rw [hsu]
  cases l with
  | nil => rfl
  | cons p ps =>
      show List.map mean (chainClusters tol [p] ps) = p :: ps
      rw [chainClusters_singletons tol ps p hch, List.map_map,
        show (mean ∘ fun a => [a]) = id from funext fun a => mean_singleton a,
        List.map_id]

/-! ### C5: separation and fixed point of clustering -/

/-- C5: for every population and tolerance the produced centers are
strictly ascending, adjacent centers are more than the tolerance apart,
and re-clustering the centers with the same tolerance returns them
unchanged. -/
theorem C5_separation_fixed_point (positions : List ℚ) (tol : ℚ) :
    (cluster_positions positions tol).Chain' (· < ·) ∧
    (cluster_positions positions tol).Chain' (fun c d => tol < d - c) ∧
    cluster_positions (cluster_positions positions tol) tol
      = cluster_positions positions tol := by
  have hne := clusterGroups_ne_nil_mem positions tol
  have hpl := clusterGroups_pairwise_le positions tol
  have hflat := clusterGroups_flatten positions tol
  have hlt : (clusterGroups positions tol).flatten.Pairwise (· < ·) := by
    rw [hflat]
    exact sortedUniq_sorted_lt positions
  have hbound : List.Chain' (fun g h => g.getLast! < h.head!) (clusterGroups positions tol) :=
    chain_boundary_of_flatten_pairwise _ hne hlt
  have hgap := clusterGroups_chain_between positions tol
  have hcomb := chain'_and hbound hgap
  have hmean : List.Chain' (fun g h => mean g < mean h ∧ tol < mean h - mean g)
      (clusterGroups positions tol) := by
    refine chain'_mono_mem ?_ hcomb
    rintro g hg h hh ⟨hb, hg2⟩
    have h1 := mean_le_getLast! g (hne g hg) (hpl g hg)
    have h2 := head!_le_mean h (hne h hh) (hpl h hh)
    exact ⟨by linarith, by linarith⟩
  have hchain_lt : (cluster_positions positions tol).Chain' (· < ·) := by
    rw [cluster_positions, List.chain'_map]
    exact hmean.imp fun _ _ h => h.1
  have hchain_gap : (cluster_positions positions tol).Chain' (fun c d => tol < d - c) := by
    rw [cluster_positions, List.chain'_map]
    exact hmean.imp fun _ _ h => h.2
  refine ⟨hchain_lt, hchain_gap, ?_⟩
  have hpair_lt : (cluster_positions positions tol).Pairwise (· < ·) :=
    List.chain'_iff_pairwise.mp hchain_lt
  have hnodup : (cluster_positions positions tol).Nodup :=
    hpair_lt.imp fun h => ne_of_lt h
  have hsorted : (cluster_positions positions tol).Sorted (· ≤ ·) :=
    hpair_lt.imp fun h => le_of_lt h
  have hsu : sortedUniq (cluster_positions positions tol) = cluster_positions positions tol := by
    unfold sortedUniq
    rw [List.Nodup.dedup hnodup, List.Sorted.insertionSort_eq hsorted]
  exact cluster_positions_of_sorted_gap tol _ hsu hchain_gap

/-! ### C8: row serialisation and column stability -/

/-- C8: a grid row with no filled cell is omitted; an emitted row is a
grid block listing, for every column of the page-wide column order,
either the formatted cell or the empty placeholder (hence every emitted
row of a page has the same column count, the grid's row width); and the
concrete page with x-positions {0, 0, 50, 100} and y-positions {0, 20}
yields two grid blocks of exactly 3 columns with empty intersections
rendered as empty cells. -/
theorem C8_row_serialisation (ncols : Nat) (row : List (List Span)) (spans : List Span)
    (ycs xcs : List ℚ) :
    (row.countP (fun cell => !cell.isEmpty) = 0 → rowLines ncols row = []) ∧
    (row.countP (fun cell => !cell.isEmpty) ≠ 0 →
      rowLines ncols row =
        ["#grid(", "  columns: " ++ toString ncols ++ ",", "  gutter: 1em,"] ++
          row.map cellLine ++ [")"] ∧
      (rowLines ncols row).length = row.length + 4) ∧
    (∀ r ∈ buildGrid spans ycs xcs, r.length = xcs.length) ∧
    pageBody c8Spans =
      ["#grid(", "  columns: 3,", "  gutter: 1em,", "  [A],", "  [B],", "  [],", ")",
       "#grid(", "  columns: 3,", "  gutter: 1em,", "  [C],", "  [],", "  [D],", ")",
       ""] := by
  refine ⟨?_, ?_, ?_, ?_⟩
  · intro h
    simp only [rowLines, if_pos h]
  · intro h
    constructor
    · simp only [rowLines, if_neg h]
    · simp only [rowLines, if_neg h, List.length_append, List.length_cons, List.length_map,
        List.length_nil]
      omega
  · intro r hr
    simp only [buildGrid, List.mem_map] at hr
    obtain ⟨n, _, hrn⟩ := hr
    rw [← hrn]
    simp
  · have hx : c8Spans.map Span.x = [0, 50, 0, 100] := by decide
    have hy : c8Spans.map Span.y = [0, 0, 20, 20] := by decide
    have hxc : cluster_positions [0, 50, 0, 100] 5 = [0, 50, 100] := by
      norm_num [cluster_positions, clusterGroups, sortedUniq, chainClusters, mean,
        List.insertionSort, List.orderedInsert, List.dedup]
    have hyc : cluster_positions [0, 0, 20, 20] 3 = [0, 20] := by
      norm_num [cluster_positions, clusterGroups, sortedUniq, chainClusters, mean,
        List.insertionSort, List.orderedInsert, List.dedup]
    have hgrid : buildGrid c8Spans [0, 20] [0, 50, 100] =
        [[[mkSpan "A" 0 0], [mkSpan "B" 50 0], []],
         [[mkSpan "C" 0 20], [], [mkSpan "D" 100 20]]] := by
      have hr2 : List.range 2 = [0, 1] := by decide
      have hr3 : List.range 3 = [0, 1, 2] := by decide
      norm_num [buildGrid, hr2, hr3, sortByX, assign_to_cluster, assignAux, c8Spans,
        mkSpan, List.filter_cons, abs_le, beq_iff_eq]
    rw [pageBody, hx, hy, hxc, hyc, hgrid]
    decide

/-- Witness for C8 at a concrete one-column row with a filled cell. -/
theorem C8_row_serialisation_witness :
    rowLines 1 [[mkSpan "A" 0 0]] =
      ["#grid(", "  columns: " ++ toString 1 ++ ",", "  gutter: 1em,"] ++
        [[mkSpan "A" 0 0]].map cellLine ++ [")"] ∧
    (rowLines 1 [[mkSpan "A" 0 0]]).length = [[mkSpan "A" 0 0]].length + 4 :=
  (C8_row_serialisation 1 [[mkSpan "A" 0 0]] [] [] []).2.1 (by decide)
